import Mathlib

/-
Verification development for the repo2llm file-selection engine.

The embedding follows src/repo2llm/core.py and src/repo2llm/formatters/__init__.py.
Paths are modelled as lists of segments (the parts of a PurePosixPath), so a file
/r/src/main.py under scan root /r is the list ["r", "src", "main.py"] and its
relative path is ["src", "main.py"].  Pattern matching follows the semantics of
Python fnmatch.translate and PurePath.match, which core.py calls through
rel_path.match(pattern): a relative pattern is matched from the right, each
pattern component is matched against one path segment, and a double star behaves
exactly like a single star.
-/

namespace Repo2LLM

/-- One compiled component token of an fnmatch pattern. -/
inductive GlobTok where
  | star : GlobTok
  | anyChar : GlobTok
  | lit : Char → GlobTok
  | cls : Bool → List Char → GlobTok

/-- Scan the body of a bracket class up to the closing bracket, returning the
content and the remaining characters, or none when the class is unterminated. -/
def scanClassRest : List Char → Option (List Char × List Char)
  | [] => none
  | ']' :: rest => some ([], rest)
  | c :: rest => (scanClassRest rest).map (fun p => (c :: p.1, p.2))

/-- Scan a bracket class body where a closing bracket placed first (after the
optional negation mark) is a literal member, as in fnmatch.translate. -/
def scanClassBody (cs : List Char) : Option (List Char × List Char) :=
  match cs with
  | ']' :: rest => (scanClassRest rest).map (fun p => ((']' : Char) :: p.1, p.2))
  | _ => scanClassRest cs

/-- Compile one fnmatch pattern component into tokens.  The fuel argument only
bounds recursion; any fuel at least the length of the character list is enough. -/
def compileGlobAux : Nat → List Char → List GlobTok
  | 0, _ => []
  | _, [] => []
  | fuel + 1, c :: ps =>
    if c = '*' then GlobTok.star :: compileGlobAux fuel ps
    else if c = '?' then GlobTok.anyChar :: compileGlobAux fuel ps
    else if c = '[' then
      match ps with
      | '!' :: body =>
        match scanClassBody body with
        | some (content, rest) => GlobTok.cls true content :: compileGlobAux fuel rest
        | none => GlobTok.lit '[' :: compileGlobAux fuel ps
      | body =>
        match scanClassBody body with
        | some (content, rest) => GlobTok.cls false content :: compileGlobAux fuel rest
        | none => GlobTok.lit '[' :: compileGlobAux fuel ps
    else GlobTok.lit c :: compileGlobAux fuel ps

/-- Membership in a bracket class body, with inclusive character ranges; a dash
that cannot form a range is a literal member. -/
def classMatches : List Char → Char → Bool
  | [], _ => false
  | a :: '-' :: b :: rest, c =>
    if a ≤ c ∧ c ≤ b then true else classMatches rest c
  | a :: rest, c => if a = c then true else classMatches rest c

/-- Whether a non-star token accepts one character. -/
def tokMatches : GlobTok → Char → Bool
  | GlobTok.star, _ => true
  | GlobTok.anyChar, _ => true
  | GlobTok.lit a, c => a == c
  | GlobTok.cls neg content, c => xor (classMatches content c) neg

/-- Match compiled tokens against a character list; a star may absorb any run of
characters inside the segment.  Fuel at least tokens + characters + 1 is enough. -/
def globMatchToksAux : Nat → List GlobTok → List Char → Bool
  | 0, ts, s => ts.isEmpty && s.isEmpty
  | _ + 1, [], s => s.isEmpty
  | fuel + 1, GlobTok.star :: ts, s =>
    globMatchToksAux fuel ts s ||
      (match s with
       | [] => false
       | _ :: s2 => globMatchToksAux fuel (GlobTok.star :: ts) s2)
  | _ + 1, _ :: _, [] => false
  | fuel + 1, t :: ts, c :: s => tokMatches t c && globMatchToksAux fuel ts s

/-- Python fnmatch semantics for one pattern component against one path segment,
case sensitive, fully anchored within the segment. -/
def fnmatch (pat s : String) : Bool :=
  let toks := compileGlobAux pat.length pat.toList
  globMatchToksAux (toks.length + s.length + 1) toks s.toList

/-- Splitting a character list on the path separator, with the semantics of
str.split on one separator character. -/
def splitSlashAux : List Char → List Char → List String
  | [], acc => [String.mk acc.reverse]
  | '/' :: rest, acc => String.mk acc.reverse :: splitSlashAux rest []
  | c :: rest, acc => splitSlashAux rest (c :: acc)

/-- The components of a pattern string as PurePath parses them: split on the
separator, dropping empty components and single-dot components. -/
def patParts (pat : String) : List String :=
  (splitSlashAux pat.toList []).filter (fun s => !(s == "") && !(s == "."))

/-- Embedding of PurePath.match as called on the relative path in core.py: a
relative pattern is matched from the right, so the last k segments of the path
must match the k pattern components one by one via fnmatch.  An empty pattern
never matches (Python raises there; core.py never passes one because every
pattern reaching this call starts with a star). -/
def pathMatch (rel : List String) (pat : String) : Bool :=
  let pp := patParts pat
  if pp.isEmpty then false
  else if rel.length < pp.length then false
  else (List.zip (rel.drop (rel.length - pp.length)) pp).all (fun sp => fnmatch sp.2 sp.1)

/-- Modelled from the spec (refinement comparison only, this is not the code):
whole-relative-path glob semantics in the words of the spec, where a star stays
inside one segment and a double star component matches zero or more whole
segments.  Fuel at least components + segments + 1 is enough. -/
def specGlobAux : Nat → List String → List String → Bool
  | 0, ps, segs => ps.isEmpty && segs.isEmpty
  | _ + 1, [], segs => segs.isEmpty
  | fuel + 1, p :: ps, segs =>
    if p = "**" then
      specGlobAux fuel ps segs ||
        (match segs with
         | [] => false
         | _ :: s2 => specGlobAux fuel (p :: ps) s2)
    else
      match segs with
      | [] => false
      | s :: s2 => fnmatch p s && specGlobAux fuel ps s2

/-- Modelled from the spec: a path is ignored by a glob pattern iff its entire
relative path matches the pattern under the semantics described in the spec. -/
def specGlobMatch (pat : String) (rel : List String) : Bool :=
  let pp := patParts pat
  specGlobAux (pp.length + rel.length + 1) pp rel

/-- Embedding of RepoConfig: scan root as absolute segments, the configured
ignore patterns, and the optional include patterns (none models Python None,
some [] models an empty set, which is falsy in the include check). -/
structure RepoConfig where
  root_dir : List String
  ignore_patterns : List String
  include_patterns : Option (List String)

/-- Embedding of the startswith test on the star character that core.py uses
to classify each pattern. -/
def startsWithStar (p : String) : Bool :=
  match p.toList with
  | '*' :: _ => true
  | _ => false

/-- The patterns kept as directory names: every pattern that does not start
with a star, stored verbatim (core.py line 32). -/
def dir_ignores (c : RepoConfig) : List String :=
  c.ignore_patterns.filter (fun p => !(startsWithStar p))

/-- The patterns matched as file globs: every pattern that starts with a star
(core.py line 33). -/
def file_patterns (c : RepoConfig) : List String :=
  c.ignore_patterns.filter (fun p => startsWithStar p)

/-- Embedding of Path.relative_to: defined exactly when the root is a prefix of
the path; Python raises ValueError otherwise, modelled by none. -/
def relative_to (root p : List String) : Option (List String) :=
  if root.isPrefixOf p then some (p.drop root.length) else none

/-- Embedding of RepoProcessor._should_ignore (core.py lines 35 to 67): the
root itself is ignored, a path outside the root is ignored (the ValueError
branch), a path one of whose relative segments equals a directory pattern is
ignored, and otherwise the file patterns are tried with Path.match. -/
def should_ignore (c : RepoConfig) (p : List String) : Bool :=
  if p = c.root_dir then true
  else
    match relative_to c.root_dir p with
    | none => true
    | some rel =>
      rel.any (fun part => (dir_ignores c).contains part) ||
        (file_patterns c).any (fun pat => pathMatch rel pat)

/-- The extension keys of the FORMATTERS mapping in formatters/__init__.py. -/
def formatterExts : List String :=
  [".py", ".js", ".jsx", ".ts", ".tsx", ".json", ".toml", ".yaml", ".yml", ".md"]

/-- The suffix of a name starting at its last dot, or none when it has no dot. -/
def suffixFrom : List Char → Option (List Char)
  | [] => none
  | c :: rest =>
    match suffixFrom rest with
    | some s => some s
    | none => if c = '.' then some (c :: rest) else none

/-- Embedding of PurePath.suffix for a path given as segments: the dotted
suffix of the last segment, empty when the last dot is the first or the last
character of the name. -/
def pathSuffix (p : List String) : String :=
  match p.getLast? with
  | none => ""
  | some name =>
    match name.toList with
    | [] => ""
    | _ :: rest =>
      match suffixFrom rest with
      | none => ""
      | some s => if s.length ≤ 1 then "" else String.mk s

/-- Embedding of get_formatter_for_file: FORMATTERS.get(path.suffix), so a
formatter exists iff the suffix is a registered key; the formatter itself is
represented by its key. -/
def get_formatter_for_file (p : List String) : Option String :=
  if formatterExts.contains (pathSuffix p) then some (pathSuffix p) else none

/-- Modelled from the spec: the formatter modules themselves (base.py and the
per-language formatters) are not under src, only their registry is; the spec
gives the canonical wrapper, the full form for non-empty content and the empty
form for content that is empty or purely whitespace. -/
def format_content (rel : List String) (content : String) : String :=
  let name := String.intercalate "/" rel
  if content.toList.all (fun c => c.isWhitespace) then
    "<file name=\"" ++ name ++ "\"></file>\n"
  else "<file name=\"" ++ name ++ "\">\n\n" ++ content ++ "\n</file>"

/-- A filesystem entry seen during traversal: its absolute path segments,
whether it is a regular file, and the result of reading its content (the error
value models the exception message of a failed open, read or decode). -/
structure Entry where
  path : List String
  isFile : Bool
  content : Except String String

/-- Strict lexicographic order on character lists, by code point. -/
def charListLt : List Char → List Char → Bool
  | [], [] => false
  | [], _ :: _ => true
  | _ :: _, [] => false
  | a :: as, b :: bs => if a = b then charListLt as bs else decide (a < b)

/-- Strict lexicographic order on strings, by code point. -/
def strLt (a b : String) : Bool :=
  charListLt a.toList b.toList

/-- Reflexive lexicographic order on segment lists; this is the order in which
sorted compares Path objects, which compare by their tuple of parts. -/
def pathLex : List String → List String → Bool
  | [], _ => true
  | _ :: _, [] => false
  | a :: as, b :: bs => if a = b then pathLex as bs else strLt a b

/-- The sort key relation used on entries: order by path. -/
def EntryLe (a b : Entry) : Prop :=
  pathLex a.path b.path = true

instance (a b : Entry) : Decidable (EntryLe a b) :=
  inferInstanceAs (Decidable (pathLex a.path b.path = true))

/-- Embedding of sorted(root.rglob(star)) applied to an already materialised
listing: a comparison sort of the entries by path order. -/
def sortEntries (entries : List Entry) : List Entry :=
  List.insertionSort EntryLe entries

/-- The per-entry body of the processing loop (core.py lines 81 to 115): skip
non-files and ignored paths, then apply the include filter when include
patterns are configured and non-empty, then look up a formatter by suffix and
skip when none is registered, then render the content, or append the reading
diagnostic when reading failed.  The result is the string appended to the
output list, or none when the entry is skipped. -/
def processEntry (c : RepoConfig) (e : Entry) : Option String :=
  if !e.isFile || should_ignore c e.path then none
  else
    match relative_to c.root_dir e.path with
    | none => none
    | some rel =>
      let includeOk :=
        match c.include_patterns with
        | none => true
        | some pats => pats.isEmpty || pats.any (fun pat => pathMatch rel pat)
      if !includeOk then none
      else
        match get_formatter_for_file e.path with
        | none => none
        | some _ =>
          match e.content with
          | Except.ok content => some (format_content rel content)
          | Except.error msg =>
            some ("\n# Error reading " ++ String.intercalate "/" rel ++ ": " ++ msg ++ "\n")

/-- The first exception raised while the listing generator is drained by
sorted(); none when every directory listing step succeeds. -/
def firstListingError (listing : List (Except String Entry)) : Option String :=
  listing.findSome? (fun x =>
    match x with
    | Except.error e => some e
    | Except.ok _ => none)

/-- The entries produced by a listing whose steps all succeeded up to errors. -/
def okEntries (listing : List (Except String Entry)) : List Entry :=
  listing.filterMap (fun x =>
    match x with
    | Except.ok e => some e
    | Except.error _ => none)

/-- The output list built by process_repository: sorted() materialises the
whole listing first, so any listing exception reaches the outer handler before
a single entry is processed and the output is one global diagnostic; otherwise
the sorted entries are processed one by one. -/
def output_chunks (c : RepoConfig) (listing : List (Except String Entry)) : List String :=
  match firstListingError listing with
  | some e => ["\n# Error processing repository: " ++ e ++ "\n"]
  | none => (sortEntries (okEntries listing)).filterMap (processEntry c)

/-- Embedding of RepoProcessor.process_repository (core.py lines 69 to 120):
the collected output strings joined by one newline.  The return value is this
single string; the code returns no file count. -/
def process_repository (c : RepoConfig) (listing : List (Except String Entry)) : String :=
  String.intercalate "\n" (output_chunks c listing)

/-- The entries of a listing that survive every skip condition, in traversal
order. -/
def kept_entries (c : RepoConfig) (entries : List Entry) : List Entry :=
  (sortEntries entries).filter (fun e => (processEntry c e).isSome)

/-- The relative paths of the rendered files in traversal order. -/
def walk_order (c : RepoConfig) (entries : List Entry) : List (List String) :=
  (kept_entries c entries).filterMap (fun e => relative_to c.root_dir e.path)

/-- A concrete scan configuration used in closed instances below. -/
def cfgW : RepoConfig :=
  ⟨["r"], [], none⟩

/-- A concrete file entry used in closed instances below. -/
def entA : Entry :=
  ⟨["r", "a.py"], true, Except.ok "0"⟩

/-- A concrete file entry used in closed instances below. -/
def entB : Entry :=
  ⟨["r", "b.py"], true, Except.ok "1"⟩

theorem charListLt_irrefl : ∀ a, charListLt a a = false
  | [] => rfl
  | c :: cs => by simp [charListLt, charListLt_irrefl cs]

theorem charListLt_asymm : ∀ a b, charListLt a b = true → charListLt b a = false
  | [], [], h => by simp [charListLt] at h
  | [], _ :: _, _ => by simp [charListLt]
  | _ :: _, [], h => by simp [charListLt] at h
  | a :: as, b :: bs, h => by
    by_cases hab : a = b
    · subst hab
      simp only [charListLt, if_pos rfl] at h ⊢
      exact charListLt_asymm as bs h
    · have hba : ¬ b = a := fun e => hab e.symm
      simp only [charListLt, if_neg hab, if_neg hba, decide_eq_true_eq] at h ⊢
      simpa using lt_asymm h

theorem charListLt_trans : ∀ a b c, charListLt a b = true → charListLt b c = true →
    charListLt a c = true
  | [], [], _, h1, _ => by simp [charListLt] at h1
  | [], _ :: _, [], _, h2 => by simp [charListLt] at h2
  | [], _ :: _, _ :: _, _, _ => by simp [charListLt]
  | _ :: _, [], _, h1, _ => by simp [charListLt] at h1
  | _ :: _, _ :: _, [], _, h2 => by simp [charListLt] at h2
  | a :: as, b :: bs, c :: cs, h1, h2 => by
    by_cases hab : a = b <;> by_cases hbc : b = c
    · subst hab; subst hbc
      simp only [charListLt, if_pos rfl] at h1 h2 ⊢
      exact charListLt_trans as bs cs h1 h2
    · subst hab
      have hac : ¬ a = c := hbc
      simp only [charListLt, if_neg hbc, if_neg hac] at h2 ⊢
      exact h2
    · subst hbc
      simp only [charListLt, if_neg hab] at h1 ⊢
      exact h1
    · simp only [charListLt, if_neg hab, if_neg hbc, decide_eq_true_eq] at h1 h2
      have hlt : a < c := lt_trans h1 h2
      have hac : ¬ a = c := ne_of_lt hlt
      simp only [charListLt, if_neg hac, decide_eq_true_eq]
      exact hlt

theorem charListLt_total : ∀ a b, a ≠ b → charListLt a b = true ∨ charListLt b a = true
  | [], [], h => absurd rfl h
  | [], _ :: _, _ => Or.inl (by simp [charListLt])
  | _ :: _, [], _ => Or.inr (by simp [charListLt])
  | a :: as, b :: bs, h => by
    by_cases hab : a = b
    · subst hab
      have hne : as ≠ bs := fun e => h (by rw [e])
      rcases charListLt_total as bs hne with h1 | h1
      · exact Or.inl (by simp [charListLt, h1])
      · exact Or.inr (by simp [charListLt, h1])
    · have hba : ¬ b = a := fun e => hab e.symm
      rcases lt_or_gt_of_ne hab with hl | hl
      · exact Or.inl (by simp [charListLt, hab, hl])
      · exact Or.inr (by simp [charListLt, hba, hl])

theorem toList_inj {a b : String} (h : a.toList = b.toList) : a = b := by
  cases a
  cases b
  simp only [String.toList] at h
  rw [h]

theorem strLt_asymm {a b : String} (h : strLt a b = true) : strLt b a = false :=
  charListLt_asymm _ _ h

theorem strLt_trans {a b c : String} (h1 : strLt a b = true) (h2 : strLt b c = true) :
    strLt a c = true :=
  charListLt_trans _ _ _ h1 h2

theorem strLt_total {a b : String} (h : a ≠ b) : strLt a b = true ∨ strLt b a = true :=
  charListLt_total _ _ (fun e => h (toList_inj e))

theorem pathLex_total : ∀ a b, pathLex a b = true ∨ pathLex b a = true
  | [], _ => Or.inl rfl
  | _ :: _, [] => Or.inr rfl
  | a :: as, b :: bs => by
    by_cases hab : a = b
    · subst hab
      rcases pathLex_total as bs with h | h
      · exact Or.inl (by simp [pathLex, h])
      · exact Or.inr (by simp [pathLex, h])
    · have hba : ¬ b = a := fun e => hab e.symm
      rcases strLt_total hab with h | h
      · exact Or.inl (by simp [pathLex, hab, h])
      · exact Or.inr (by simp [pathLex, hba, h])

theorem pathLex_antisymm : ∀ a b, pathLex a b = true → pathLex b a = true → a = b
  | [], [], _, _ => rfl
  | [], _ :: _, _, h2 => by simp [pathLex] at h2
  | _ :: _, [], h1, _ => by simp [pathLex] at h1
  | a :: as, b :: bs, h1, h2 => by
    by_cases hab : a = b
    · subst hab
      simp only [pathLex, if_pos rfl] at h1 h2
      rw [pathLex_antisymm as bs h1 h2]
    · have hba : ¬ b = a := fun e => hab e.symm
      simp only [pathLex, if_neg hab] at h1
      simp only [pathLex, if_neg hba] at h2
      have hf := strLt_asymm h1
      rw [h2] at hf
      simp at hf

theorem pathLex_trans : ∀ a b c, pathLex a b = true → pathLex b c = true → pathLex a c = true
  | [], _, _, _, _ => rfl
  | _ :: _, [], _, h1, _ => by simp [pathLex] at h1
  | _ :: _, _ :: _, [], _, h2 => by simp [pathLex] at h2
  | a :: as, b :: bs, c :: cs, h1, h2 => by
    by_cases hab : a = b <;> by_cases hbc : b = c
    · subst hab; subst hbc
      simp only [pathLex, if_pos rfl] at h1 h2 ⊢
      exact pathLex_trans as bs cs h1 h2
    · subst hab
      have hac : ¬ a = c := hbc
      simp only [pathLex, if_neg hbc, if_neg hac] at h2 ⊢
      exact h2
    · subst hbc
      simp only [pathLex, if_neg hab] at h1 ⊢
      exact h1
    · simp only [pathLex, if_neg hab, if_neg hbc] at h1 h2
      have hlt : strLt a c = true := strLt_trans h1 h2
      have hac : ¬ a = c := by
        intro e
        subst e
        have hf := strLt_asymm h1
        rw [h2] at hf
        simp at hf
      simp only [pathLex, if_neg hac]
      exact hlt

instance : IsTotal Entry EntryLe :=
  ⟨fun a b => pathLex_total a.path b.path⟩

instance : IsTrans Entry EntryLe :=
  ⟨fun _ _ _ h1 h2 => pathLex_trans _ _ _ h1 h2⟩

/-- Two sorted lists of entries with pairwise distinct paths that are
permutations of each other are equal; this is why sorting makes the traversal
of an unmodified tree reproducible whatever order the directory entries are
enumerated in. -/
theorem sorted_perm_eq (l₁ : List Entry) : ∀ l₂ : List Entry, l₁.Perm l₂ →
    l₁.Pairwise EntryLe → l₂.Pairwise EntryLe → (l₁.map Entry.path).Nodup → l₁ = l₂ := by
  induction l₁ with
  | nil =>
    intro l₂ hp _ _ _
    exact (List.Perm.nil_eq hp)
  | cons a t₁ ih =>
    intro l₂ hp s₁ s₂ nd
    cases l₂ with
    | nil => exact absurd (List.Perm.eq_nil hp) (by simp)
    | cons b t₂ =>
      have hab : a = b := by
        by_contra hne
        have ha2 : a ∈ b :: t₂ := hp.mem_iff.mp (List.mem_cons_self a t₁)
        have hb1 : b ∈ a :: t₁ := hp.symm.mem_iff.mp (List.mem_cons_self b t₂)
        have hat2 : a ∈ t₂ := by
          rcases List.mem_cons.mp ha2 with h | h
          · exact absurd h hne
          · exact h
        have hbt1 : b ∈ t₁ := by
          rcases List.mem_cons.mp hb1 with h | h
          · exact absurd h.symm hne
          · exact h
        have h1 : EntryLe a b := List.rel_of_pairwise_cons s₁ hbt1
        have h2 : EntryLe b a := List.rel_of_pairwise_cons s₂ hat2
        have hpath : a.path = b.path := pathLex_antisymm _ _ h1 h2
        have hnd : (∀ x ∈ t₁, ¬ x.path = a.path) ∧ (t₁.map Entry.path).Nodup := by
          simpa using nd
        exact (hnd.1 b hbt1) hpath.symm
      subst hab
      have hpt : t₁.Perm t₂ := hp.cons_inv
      have hnd : (∀ x ∈ t₁, ¬ x.path = a.path) ∧ (t₁.map Entry.path).Nodup := by
        simpa using nd
      rw [ih t₂ hpt s₁.of_cons s₂.of_cons hnd.2]

theorem firstListingError_map_ok (l : List Entry) :
    firstListingError (l.map Except.ok) = none := by
  induction l with
  | nil => rfl
  | cons e es ih =>
    simp only [firstListingError, List.map_cons, List.findSome?_cons] at ih ⊢
    exact ih

theorem okEntries_map_ok (l : List Entry) : okEntries (l.map Except.ok) = l := by
  induction l with
  | nil => rfl
  | cons e es ih =>
    simp only [okEntries, List.map_cons, List.filterMap_cons] at ih ⊢
    simpa using ih

theorem output_chunks_ok (c : RepoConfig) (l : List Entry) :
    output_chunks c (l.map Except.ok) = (sortEntries l).filterMap (processEntry c) := by
  simp [output_chunks, firstListingError_map_ok, okEntries_map_ok]

theorem process_repository_ok (c : RepoConfig) (l : List Entry) :
    process_repository c (l.map Except.ok) =
      String.intercalate "\n" ((sortEntries l).filterMap (processEntry c)) := by
  rw [process_repository, output_chunks_ok]

theorem relative_to_some (root p rel : List String) (h : relative_to root p = some rel) :
    root.isPrefixOf p = true ∧ p = root ++ rel := by
  unfold relative_to at h
  by_cases hp : root.isPrefixOf p = true
  · rw [if_pos hp] at h
    obtain ⟨t, ht⟩ := List.isPrefixOf_iff_prefix.mp hp
    refine ⟨hp, ?_⟩
    subst ht
    rw [List.drop_left] at h
    rw [Option.some_inj.mp h]
  · rw [if_neg hp] at h
    cases h

theorem relative_to_append (root rel : List String) :
    relative_to root (root ++ rel) = some rel := by
  have hp : root.isPrefixOf (root ++ rel) = true :=
    List.isPrefixOf_iff_prefix.mpr (List.prefix_append root rel)
  simp [relative_to, hp, List.drop_left]

theorem append_ne_left {root rel : List String} (h : rel ≠ []) : root ++ rel ≠ root := by
  intro he
  have hl := congrArg List.length he
  simp at hl
  exact h hl

theorem pathLex_append : ∀ (r a b : List String), pathLex (r ++ a) (r ++ b) = pathLex a b
  | [], _, _ => rfl
  | x :: xs, a, b => by simp [pathLex, pathLex_append xs a b]

/-- C1: evaluation of the code at the failing input.  The claim says a
directory pattern with a trailing slash behaves exactly like the same name
without one, and the tests assert it, but core.py stores every directory
pattern verbatim and compares it against single path segments, which never
contain a separator; so the pattern output/ matches nothing and the file
output/result.txt is kept, while the pattern output does ignore it. -/
theorem trailing_slash_pattern_inert :
    should_ignore ⟨["r"], ["output/"], none⟩ ["r", "output", "result.txt"] = false ∧
    should_ignore ⟨["r"], ["output"], none⟩ ["r", "output", "result.txt"] = true := by
  decide

/-- C2 counterexample: the code does not match glob patterns against the whole
relative path.  The pattern star dot py ignores src/a.py although the whole
path does not match under the semantics the claim states, and the pattern
src/t star dot py, which contains a metacharacter but does not begin with a
star, is classified as a directory name and ignores nothing although the whole
path matches it. -/
theorem glob_whole_path_cex :
    should_ignore ⟨["r"], ["*.py"], none⟩ ["r", "src", "a.py"] = true ∧
    specGlobMatch "*.py" ["src", "a.py"] = false ∧
    should_ignore ⟨["r"], ["src/t*.py"], none⟩ ["r", "src", "test1.py"] = false ∧
    specGlobMatch "src/t*.py" ["src", "test1.py"] = true := by
  decide

/-- C2 amended: only a pattern beginning with a star is glob matched, and for
such a pattern a proper descendant of the root is ignored exactly when
Path.match accepts its relative path, that is when the trailing segments of
the path match the pattern components one by one, a star staying inside one
segment and a double star behaving like a single star. -/
theorem glob_ignore_eq_pathMatch (root rel : List String) (pat : String)
    (hpat : startsWithStar pat = true) (hrel : rel ≠ []) :
    should_ignore ⟨root, [pat], none⟩ (root ++ rel) = pathMatch rel pat := by
  have hne : root ++ rel ≠ root := append_ne_left hrel
  have hrt : relative_to root (root ++ rel) = some rel := relative_to_append root rel
  simp [should_ignore, hne, hrt, dir_ignores, file_patterns, hpat]

/-- Witness for the C2 amended theorem at a concrete pattern and path. -/
theorem glob_ignore_eq_pathMatch_witness :
    (startsWithStar "*.py" = true) ∧ (["src", "a.py"] : List String) ≠ [] ∧
    should_ignore ⟨["r"], ["*.py"], none⟩ (["r"] ++ ["src", "a.py"]) =
      pathMatch ["src", "a.py"] "*.py" :=
  ⟨by decide, by decide,
    glob_ignore_eq_pathMatch ["r"] ["src", "a.py"] "*.py" (by decide) (by decide)⟩

/-- C3: evaluation of the code at the failing input.  The claim, the spec and
the tests say a pattern equal to a relative file path such as src/main.py
ignores exactly that file, but the pattern does not begin with a star, so
core.py compares it against single path segments and it never matches; the
file is kept, as is its sibling. -/
theorem explicit_file_pattern_inert :
    should_ignore ⟨["r"], ["src/main.py"], none⟩ ["r", "src", "main.py"] = false ∧
    should_ignore ⟨["r"], ["src/main.py"], none⟩ ["r", "src", "app.ts"] = false := by
  decide

/-- C4: evaluation of the code at the failing input.  Path.match treats a
double star like a single star and matches only the trailing components, so
the pattern for any depth below a directory named nested ignores a file one
level below such a directory but keeps a file two levels below it, which the
test asserting full subtree exclusion contradicts. -/
theorem nested_double_star_partial :
    should_ignore ⟨["r"], ["**/nested/**"], none⟩
      ["r", "src", "nested", "deep", "test.py"] = false ∧
    should_ignore ⟨["r"], ["**/nested/**"], none⟩
      ["r", "src", "nested", "test.py"] = true := by
  decide

/-- C5: evaluation of the code on the scenario tree.  Both Python files are
ignored by the star dot py pattern, but the surviving text file is also
dropped because get_formatter_for_file has no entry for the txt suffix and no
generic fallback is wired in, so the whole output is empty rather than
containing the rendered content of src/other.txt that the claim and the test
expect. -/
theorem wildcard_scenario_drops_other_txt :
    process_repository ⟨["r"], ["*.py"], none⟩
        [Except.ok ⟨["r", "src"], false, Except.ok ""⟩,
         Except.ok ⟨["r", "src", "test1.py"], true, Except.ok "print(1)"⟩,
         Except.ok ⟨["r", "src", "test2.py"], true, Except.ok "print(2)"⟩,
         Except.ok ⟨["r", "src", "other.txt"], true, Except.ok "other"⟩] = "" := by
  decide

/-- C6 counterexample: a file that is not ignored and matches a configured
include pattern still does not appear in the output when its suffix has no
registered formatter, so appearing in the output is not equivalent to passing
the ignore and include checks. -/
theorem include_filter_cex :
    should_ignore ⟨["r"], [], some ["*.txt"]⟩ ["r", "a.txt"] = false ∧
    pathMatch ["a.txt"] "*.txt" = true ∧
    process_repository ⟨["r"], [], some ["*.txt"]⟩
      [Except.ok ⟨["r", "a.txt"], true, Except.ok "hi"⟩] = "" := by
  decide

/-- C6 amended: when the include set is non-empty, a regular file under the
root whose suffix has a registered formatter and whose content reads
successfully is rendered into the output exactly when the ignore check
returns false and its relative path matches at least one include glob; the
ignore check is performed first, so an ignored file is dropped whatever the
include patterns say. -/
theorem include_filter_gate (root rel ign pats : List String) (content : String)
    (hne : pats ≠ []) (hfmt : get_formatter_for_file (root ++ rel) ≠ none) :
    processEntry ⟨root, ign, some pats⟩ ⟨root ++ rel, true, Except.ok content⟩ =
      (if should_ignore ⟨root, ign, some pats⟩ (root ++ rel) = false ∧
          pats.any (fun pat => pathMatch rel pat) = true
        then some (format_content rel content) else none) := by
  obtain ⟨f, hf⟩ := Option.ne_none_iff_exists'.mp hfmt
  have hemp : pats.isEmpty = false := by
    cases pats with
    | nil => exact absurd rfl hne
    | cons p ps => rfl
  cases hsi : should_ignore ⟨root, ign, some pats⟩ (root ++ rel) with
  | true => simp [processEntry, hsi]
  | false =>
    cases hany : pats.any (fun pat => pathMatch rel pat) with
    | true => simp [processEntry, hsi, relative_to_append, hemp, hany, hf]
    | false => simp [processEntry, hsi, relative_to_append, hemp, hany]

/-- Witness for the C6 amended theorem at a concrete tree. -/
theorem include_filter_gate_witness :
    (["*.py"] : List String) ≠ [] ∧
    get_formatter_for_file (["r"] ++ ["a.py"]) ≠ none ∧
    processEntry ⟨["r"], [], some ["*.py"]⟩ ⟨["r"] ++ ["a.py"], true, Except.ok "x"⟩ =
      (if should_ignore ⟨["r"], [], some ["*.py"]⟩ (["r"] ++ ["a.py"]) = false ∧
          (["*.py"] : List String).any (fun pat => pathMatch ["a.py"] pat) = true
        then some (format_content ["a.py"] "x") else none) :=
  ⟨by decide, by decide,
    include_filter_gate ["r"] ["a.py"] [] ["*.py"] "x" (by decide) (by decide)⟩

/-- C7 counterexample: an exception raised while the listing is drained does
not leave only one subtree out.  The listing below fails between two readable
files, yet the output is the single global diagnostic and neither file is
rendered, because sorted materialises the whole generator before the loop and
the exception reaches the handler outside the loop. -/
theorem listing_error_cex :
    process_repository ⟨["r"], [], none⟩
        [Except.ok ⟨["r", "a.py"], true, Except.ok "print(0)"⟩,
         Except.error "PermissionError",
         Except.ok ⟨["r", "b.py"], true, Except.ok "print(1)"⟩] =
      "\n# Error processing repository: PermissionError\n" := by
  decide

/-- C7 amended: when draining the listing raises, process_repository still
returns normally, but its whole output is the single diagnostic built from
the first error; no file at all is rendered and traversal does not continue
past the failure. -/
theorem listing_error_single_diagnostic (c : RepoConfig)
    (listing : List (Except String Entry)) (e : String)
    (h : firstListingError listing = some e) :
    process_repository c listing = "\n# Error processing repository: " ++ e ++ "\n" := by
  unfold process_repository output_chunks
  rw [h]
  rfl

/-- Witness for the C7 amended theorem at a concrete failing listing. -/
theorem listing_error_single_diagnostic_witness :
    firstListingError [(Except.error "boom" : Except String Entry)] = some "boom" ∧
    process_repository ⟨["r"], [], none⟩ [(Except.error "boom" : Except String Entry)] =
      "\n# Error processing repository: boom" ++ "\n" :=
  ⟨by decide, listing_error_single_diagnostic ⟨["r"], [], none⟩ _ "boom" (by decide)⟩

/-- C8: evaluation of the code at a concrete two-file tree.  The return value
is the rendered files joined by one newline in sorted traversal order, and it
is only that string: process_repository is annotated and documented as
returning a str and returns the join directly, with no accompanying file
count, although every test unpacks a pair of output and count. -/
theorem process_repository_join_no_count :
    process_repository ⟨["r"], [], none⟩
        [Except.ok ⟨["r", "b.py"], true, Except.ok "print(1)"⟩,
         Except.ok ⟨["r", "a.py"], true, Except.ok "print(0)"⟩] =
      "<file name=\"a.py\">\n\nprint(0)\n</file>" ++ "\n" ++
        "<file name=\"b.py\">\n\nprint(1)\n</file>" := by
  decide

/-- C9: the walker is deterministic and sorted.  Listing the same unmodified
tree in two different enumeration orders yields the same output string and
the same number of output chunks, and the rendered files appear in
lexicographic order of their relative paths. -/
theorem process_repository_deterministic_sorted (c : RepoConfig) (l₁ l₂ : List Entry)
    (hperm : l₁.Perm l₂) (hnd : (l₁.map Entry.path).Nodup) :
    process_repository c (l₁.map Except.ok) = process_repository c (l₂.map Except.ok) ∧
    (output_chunks c (l₁.map Except.ok)).length =
      (output_chunks c (l₂.map Except.ok)).length ∧
    (walk_order c l₁).Pairwise (fun a b => pathLex a b = true) := by
  have hsort : sortEntries l₁ = sortEntries l₂ := by
    apply sorted_perm_eq
    · exact (List.perm_insertionSort EntryLe l₁).trans
        (hperm.trans (List.perm_insertionSort EntryLe l₂).symm)
    · exact List.sorted_insertionSort EntryLe l₁
    · exact List.sorted_insertionSort EntryLe l₂
    · exact ((List.perm_insertionSort EntryLe l₁).map Entry.path).nodup_iff.mpr hnd
  refine ⟨?_, ?_, ?_⟩
  · rw [process_repository_ok, process_repository_ok, hsort]
  · rw [output_chunks_ok, output_chunks_ok, hsort]
  · have hpw : (sortEntries l₁).Pairwise EntryLe := List.sorted_insertionSort EntryLe l₁
    have hkept : (kept_entries c l₁).Pairwise EntryLe := hpw.filter _
    refine List.Pairwise.filterMap _ ?_ hkept
    intro a a' hle b hb b' hb'
    obtain ⟨_, hpa⟩ := relative_to_some _ _ _ (Option.mem_def.mp hb)
    obtain ⟨_, hpa'⟩ := relative_to_some _ _ _ (Option.mem_def.mp hb')
    have hpl : pathLex a.path a'.path = true := hle
    rw [hpa, hpa', pathLex_append] at hpl
    exact hpl

/-- Witness for the C9 theorem at a concrete two-file tree listed in two
different orders. -/
theorem process_repository_deterministic_sorted_witness :
    ([entB, entA].Perm [entA, entB]) ∧ ([entB, entA].map Entry.path).Nodup ∧
    (process_repository cfgW ([entB, entA].map Except.ok) =
        process_repository cfgW ([entA, entB].map Except.ok) ∧
      (output_chunks cfgW ([entB, entA].map Except.ok)).length =
        (output_chunks cfgW ([entA, entB].map Except.ok)).length ∧
      (walk_order cfgW [entB, entA]).Pairwise (fun a b => pathLex a b = true)) :=
  ⟨List.Perm.swap entA entB [], by decide,
    process_repository_deterministic_sorted cfgW [entB, entA] [entA, entB]
      (List.Perm.swap entA entB []) (by decide)⟩

/-- C10: _should_ignore is total and acts as a guard.  Whenever it returns
false the path is a proper descendant of the scan root, so the root itself
and every path outside the root, where computing the relative path raises
ValueError in Python, are reported as ignored and can never reach the
output. -/
theorem should_ignore_false_implies_proper_descendant (c : RepoConfig) (p : List String)
    (h : should_ignore c p = false) :
    c.root_dir.isPrefixOf p = true ∧ p ≠ c.root_dir := by
  unfold should_ignore at h
  by_cases hr : p = c.root_dir
  · rw [if_pos hr] at h
    simp at h
  · rw [if_neg hr] at h
    refine ⟨?_, hr⟩
    cases hrt : relative_to c.root_dir p with
    | none =>
      rw [hrt] at h
      simp at h
    | some rel => exact (relative_to_some _ _ _ hrt).1

/-- Witness for the C10 theorem at a concrete non-ignored path. -/
theorem should_ignore_false_implies_proper_descendant_witness :
    should_ignore cfgW ["r", "a.py"] = false ∧
    (cfgW.root_dir.isPrefixOf ["r", "a.py"] = true ∧ ["r", "a.py"] ≠ cfgW.root_dir) :=
  ⟨by decide,
    should_ignore_false_implies_proper_descendant cfgW ["r", "a.py"] (by decide)⟩

end Repo2LLM
